import Mathlib

/-!
Verification of the `ocidir` OCI image-layout library (`src/lib.rs`) against
its natural-language specification.  The Rust code is shallowly embedded:
the filesystem is a finite map from paths to byte lists, SHA-256 and the gzip
encoder are abstract parameters (the library treats them as external
collaborators with an incremental interface), and every fallible operation
returns `Option` or `Except`.
-/

set_option autoImplicit false

namespace Oci

/-! ## Bytes and lowercase hex encoding (`hex::encode`) -/

/-- A byte, kept as a `Nat` (values fed by the code are < 256). -/
abbrev Byte := Nat

/-- The sixteen lowercase hex digits, in order. -/
def hexChars : List Char := "0123456789abcdef".data

/-- Digit character for a nibble. -/
def hexDigit (n : Nat) : Char := hexChars.getD (n % 16) '0'

/-- Two hex characters of one byte, high nibble first. -/
def hexByte (b : Byte) : List Char := [hexDigit (b / 16), hexDigit b]

/-- `hex::encode`: lowercase hex of a byte list. -/
def hexEncode (bs : List Byte) : List Char := (bs.map hexByte).flatten

/-- Length of a hex-formatted sha256 (`BLOB_SHA256_LEN`). -/
def BLOB_SHA256_LEN : Nat := 64

/-- The index annotation key used for tags (`OCI_TAG_ANNOTATION` in the source). -/
def ociTagKey : String := "org.opencontainers.image.ref.name"

theorem hexDigit_mem (n : Nat) : hexDigit n ∈ hexChars := by
  have h : n % 16 < hexChars.length := Nat.mod_lt _ (by decide)
  simp only [hexDigit, List.getD_eq_getElem?_getD, List.getElem?_eq_getElem h,
    Option.getD_some]
  exact List.getElem_mem h

theorem hexEncode_mem {bs : List Byte} {c : Char} (h : c ∈ hexEncode bs) : c ∈ hexChars := by
  simp only [hexEncode, List.mem_flatten, List.mem_map] at h
  obtain ⟨piece, ⟨b, _, rfl⟩, hc⟩ := h
  simp only [hexByte, List.mem_cons, List.not_mem_nil, or_false] at hc
  rcases hc with rfl | rfl
  · exact hexDigit_mem _
  · exact hexDigit_mem _

/-! ## Path-component parsing (`parse_one_filename`, camino `Utf8Path::file_name`)

`Utf8Path::file_name` returns the last normalized path component when it is a
normal component; it returns `None` for an empty path, a path ending in `..`,
a bare `/`, or a bare `.`.  Normalization splits on `/` and drops empty and
`.` components. -/

/-- Split a character list on a separator; the pieces never contain it. -/
def splitSepAux (sep : Char) : List Char → List Char → List (List Char)
  | [], acc => [acc.reverse]
  | c :: rest, acc =>
    if c = sep then acc.reverse :: splitSepAux sep rest []
    else splitSepAux sep rest (c :: acc)

def splitSep (sep : Char) (s : List Char) : List (List Char) := splitSepAux sep s []

/-- Normalized path components: split on `/`, drop empty and `.` pieces. -/
def pathComponents (s : List Char) : List (List Char) :=
  (splitSep '/' s).filter (fun c => c ≠ [] ∧ c ≠ ['.'])

/-- camino `Utf8Path::file_name` over a character list. -/
def fileNameCL (s : List Char) : Option (List Char) :=
  match (pathComponents s).getLast? with
  | some c => if c = ['.', '.'] then none else some c
  | none => none

/-- `parse_one_filename`: take the final path component of `s`, ignoring
directory components; `none` on strings such as `"/"`, `".."` or `""`. -/
def parse_one_filename (s : String) : Option String :=
  (fileNameCL s.data).map String.mk

/-- `str::split_once` over character lists: split at the first occurrence. -/
def splitOnceCL (sep : Char) : List Char → Option (List Char × List Char)
  | [] => none
  | c :: rest =>
    if c = sep then some ([], rest)
    else (splitOnceCL sep rest).map (fun p => (c :: p.1, p.2))

/-- `digest.split_once(':')` as used by `parse_descriptor_to_path`. -/
def splitOnceColon (s : String) : Option (String × String) :=
  (splitOnceCL ':' s.data).map (fun p => (String.mk p.1, String.mk p.2))

/-- `OciDir::parse_descriptor_to_path`: split the digest at the first `:`,
validate the algorithm component, require it to be `sha256`, validate the hex
component, and return the relative path `blobs/sha256/<hex>`.  `none` models
every error return. -/
def parse_descriptor_to_path (digest : String) : Option (List String) :=
  match splitOnceColon digest with
  | none => none
  | some (alg, hash) =>
    match parse_one_filename alg with
    | none => none
    | some alg =>
      if alg = "sha256" then
        match parse_one_filename hash with
        | none => none
        | some hash => some ["blobs", "sha256", hash]
      else none

theorem splitSepAux_no_sep {sep : Char} :
    ∀ (l acc : List Char) (piece : List Char), sep ∉ acc →
      piece ∈ splitSepAux sep l acc → sep ∉ piece := by
  intro l
  induction l with
  | nil =>
    intro acc piece hacc hmem
    simp only [splitSepAux, List.mem_singleton] at hmem
    subst hmem
    simpa using hacc
  | cons c rest ih =>
    intro acc piece hacc hmem
    simp only [splitSepAux] at hmem
    by_cases hc : c = sep
    · simp only [if_pos hc, List.mem_cons] at hmem
      rcases hmem with rfl | hmem
      · simpa using hacc
      · exact ih [] piece (List.not_mem_nil _) hmem
    · simp only [if_neg hc] at hmem
      refine ih (c :: acc) piece ?_ hmem
      simp only [List.mem_cons, not_or]
      exact ⟨fun h => hc h.symm, hacc⟩

theorem splitSep_no_sep {sep : Char} {s piece : List Char}
    (h : piece ∈ splitSep sep s) : sep ∉ piece :=
  splitSepAux_no_sep s [] piece (List.not_mem_nil _) h

theorem mem_of_getLastQ {α : Type} : ∀ {l : List α} {a : α}, l.getLast? = some a → a ∈ l := by
  intro l
  induction l with
  | nil => intro a h; simp [List.getLast?] at h
  | cons x xs ih =>
    intro a h
    cases xs with
    | nil =>
      simp only [List.getLast?_singleton, Option.some.injEq] at h
      simp [h]
    | cons y ys =>
      rw [List.getLast?_cons_cons] at h
      exact List.mem_cons_of_mem _ (ih h)

/-- Properties of a successful `parse_one_filename`: the result is a nonempty
component, not `..`, containing no `/`. -/
theorem parse_one_filename_safe {s f : String} (h : parse_one_filename s = some f) :
    f.data ≠ [] ∧ f.data ≠ ['.', '.'] ∧ '/' ∉ f.data := by
  simp only [parse_one_filename, Option.map_eq_some'] at h
  obtain ⟨c, hc, rfl⟩ := h
  simp only [fileNameCL] at hc
  split at hc
  · next comp hlast =>
    split at hc
    · exact absurd hc (by simp)
    · next hne =>
      simp only [Option.some.injEq] at hc
      subst hc
      have hmem : comp ∈ pathComponents s.data := mem_of_getLastQ hlast
      simp only [pathComponents, List.mem_filter, decide_eq_true_eq] at hmem
      refine ⟨hmem.2.1, hne, splitSep_no_sep hmem.1⟩
  · exact absurd hc (by simp)

/-! ## Digest Writer (`BlobWriter`)

The openssl `Hasher` is modelled by the byte list fed so far together with an
abstract digest function `H` applied at `finish` time; `hex::encode` of the
digest gives the blob name.  The tempfile target is the byte list appended so
far; `complete` publishes it under `blobs/sha256/<hex>`.  The `size` field is
a `u64`, so additions wrap modulo `2^64`. -/

/-- `u64` modulus. -/
def U64 : Nat := 2 ^ 64

/-- Completed blob metadata (`Blob`). -/
structure Blob where
  sha256 : String
  size : Nat
deriving DecidableEq, Repr

/-- `Blob::digest_id`: the OCI `checksum-type:checksum` form. -/
def Blob.digest_id (b : Blob) : String := "sha256:" ++ b.sha256

/-- `BlobWriter` state: bytes fed to the hasher, bytes in the temp file,
and the running `size : u64`. -/
structure BlobWriter where
  hashFed : List Byte
  target : List Byte
  size : Nat
deriving DecidableEq, Repr

/-- `BlobWriter::new`: fresh hasher, empty tempfile, zero size. -/
def BlobWriter.new : BlobWriter := { hashFed := [], target := [], size := 0 }

/-- One `Write::write` call: feed the hasher, append to the temp file,
bump `size` (wrapping `u64` addition). -/
def BlobWriter.write (w : BlobWriter) (srcbuf : List Byte) : BlobWriter :=
  { hashFed := w.hashFed ++ srcbuf
    target := w.target ++ srcbuf
    size := (w.size + srcbuf.length) % U64 }

/-- A finite sequence of `write` calls. -/
def BlobWriter.writeMany (w : BlobWriter) (bufs : List (List Byte)) : BlobWriter :=
  bufs.foldl BlobWriter.write w

/-- Result of `BlobWriter::complete`: the returned `Blob`, the path the temp
file was renamed to, and the published bytes. -/
structure CompletedBlob where
  blob : Blob
  path : String
  content : List Byte
deriving DecidableEq, Repr

/-- `BlobWriter::complete` with digest function `H`: finish the hash, hex it,
and atomically publish the temp file under `blobs/sha256/<hex>`. -/
def BlobWriter.complete (H : List Byte → List Byte) (w : BlobWriter) : CompletedBlob :=
  let sha256 := String.mk (hexEncode (H w.hashFed))
  { blob := { sha256 := sha256, size := w.size }
    path := "blobs/sha256/" ++ sha256
    content := w.target }

theorem writeMany_hashFed (bufs : List (List Byte)) :
    ∀ w : BlobWriter, (w.writeMany bufs).hashFed = w.hashFed ++ bufs.flatten := by
  induction bufs with
  | nil => intro w; simp [BlobWriter.writeMany]
  | cons b bs ih =>
    intro w
    simp only [BlobWriter.writeMany, List.foldl_cons] at *
    rw [ih]
    simp [BlobWriter.write]

theorem writeMany_target (bufs : List (List Byte)) :
    ∀ w : BlobWriter, (w.writeMany bufs).target = w.target ++ bufs.flatten := by
  induction bufs with
  | nil => intro w; simp [BlobWriter.writeMany]
  | cons b bs ih =>
    intro w
    simp only [BlobWriter.writeMany, List.foldl_cons] at *
    rw [ih]
    simp [BlobWriter.write]

theorem writeMany_size (bufs : List (List Byte)) :
    ∀ w : BlobWriter, w.size < U64 →
      (w.writeMany bufs).size = (w.size + bufs.flatten.length) % U64 := by
  induction bufs with
  | nil =>
    intro w hw
    simp only [BlobWriter.writeMany, List.foldl_nil, List.flatten_nil, List.length_nil,
      Nat.add_zero]
    exact (Nat.mod_eq_of_lt hw).symm
  | cons b bs ih =>
    intro w hw
    simp only [BlobWriter.writeMany, List.foldl_cons] at *
    rw [ih (w.write b) (Nat.mod_lt _ (by decide))]
    simp only [BlobWriter.write, List.flatten_cons, List.length_append]
    rw [Nat.mod_add_mod, Nat.add_assoc]

/-! ## Compressing Layer Writer (`GzipLayerWriter`)

`flate2::write::GzEncoder<Vec<u8>>` is modelled abstractly: an internal state
type `σ`, a `writeAll` step that consumes an input buffer, advances the state
and appends some emitted compressed bytes to the inner `Vec`, and a `finish`
step that emits the trailing bytes.  The source clears the inner `Vec` before
every `write` and before `finish`, then forwards the whole `Vec` contents to
the inner `BlobWriter`. -/

/-- Abstract incremental gzip encoder (the flate2 external collaborator). -/
structure GzEncoderModel (σ : Type) where
  init : σ
  writeAll : σ → List Byte → σ × List Byte
  finish : σ → List Byte

/-- Completed layer metadata (`Layer`). -/
structure Layer where
  blob : Blob
  uncompressed_sha256 : String
deriving DecidableEq, Repr

/-- `GzipLayerWriter` state: inner `BlobWriter`, bytes fed to the
uncompressed hasher, encoder state, and the encoder's inner `Vec`. -/
structure GzipLayerWriter (σ : Type) where
  bw : BlobWriter
  uncompressedFed : List Byte
  encState : σ
  encBuf : List Byte

/-- `GzipLayerWriter::new`. -/
def GzipLayerWriter.new {σ : Type} (E : GzEncoderModel σ) : GzipLayerWriter σ :=
  { bw := BlobWriter.new, uncompressedFed := [], encState := E.init, encBuf := [] }

/-- One `Write::write` call: clear the inner `Vec`, compress `srcbuf` into
it, feed `srcbuf` to the uncompressed hasher, and forward the `Vec` contents
to the inner `BlobWriter`. -/
def GzipLayerWriter.write {σ : Type} (E : GzEncoderModel σ) (w : GzipLayerWriter σ)
    (srcbuf : List Byte) : GzipLayerWriter σ :=
  let step := E.writeAll w.encState srcbuf
  { bw := w.bw.write step.2
    uncompressedFed := w.uncompressedFed ++ srcbuf
    encState := step.1
    encBuf := step.2 }

/-- A finite sequence of `write` calls. -/
def GzipLayerWriter.writeMany {σ : Type} (E : GzEncoderModel σ) (w : GzipLayerWriter σ)
    (bufs : List (List Byte)) : GzipLayerWriter σ :=
  bufs.foldl (GzipLayerWriter.write E) w

/-- Result of `GzipLayerWriter::complete`. -/
structure CompletedLayer where
  layer : Layer
  path : String
  content : List Byte
deriving DecidableEq, Repr

/-- `GzipLayerWriter::complete`: clear the inner `Vec`, `finish` the encoder
(emitting the trailer into the `Vec`), forward it to the `BlobWriter`,
complete that, and finish the uncompressed hasher. -/
def GzipLayerWriter.complete {σ : Type} (E : GzEncoderModel σ)
    (H : List Byte → List Byte) (w : GzipLayerWriter σ) : CompletedLayer :=
  let buf := E.finish w.encState
  let c := (w.bw.write buf).complete H
  { layer := { blob := c.blob
               uncompressed_sha256 := String.mk (hexEncode (H w.uncompressedFed)) }
    path := c.path
    content := c.content }

/-- Fold the abstract encoder over a sequence of input buffers, returning the
final state and the concatenation of all emitted output. -/
def encFold {σ : Type} (E : GzEncoderModel σ) (s : σ) (bufs : List (List Byte)) :
    σ × List Byte :=
  bufs.foldl (fun acc b => let r := E.writeAll acc.1 b; (r.1, acc.2 ++ r.2)) (s, [])

/-- The full compressed stream the encoder itself would produce for `bufs`:
everything emitted during writes, followed by the `finish` trailer. -/
def encRun {σ : Type} (E : GzEncoderModel σ) (bufs : List (List Byte)) : List Byte :=
  (encFold E E.init bufs).2 ++ E.finish (encFold E E.init bufs).1

theorem encFold_out_append {σ : Type} (E : GzEncoderModel σ) (bufs : List (List Byte)) :
    ∀ (s : σ) (out : List Byte),
      bufs.foldl (fun acc b => let r := E.writeAll acc.1 b; (r.1, acc.2 ++ r.2)) (s, out)
        = ((encFold E s bufs).1, out ++ (encFold E s bufs).2) := by
  induction bufs with
  | nil => intro s out; simp [encFold]
  | cons b bs ih =>
    intro s out
    simp only [encFold, List.foldl_cons] at *
    rw [ih, ih (E.writeAll s b).1 ([] ++ (E.writeAll s b).2)]
    simp

theorem gzWriteMany_spec {σ : Type} (E : GzEncoderModel σ) (bufs : List (List Byte)) :
    ∀ w : GzipLayerWriter σ,
      (w.writeMany E bufs).bw.target = w.bw.target ++ (encFold E w.encState bufs).2 ∧
      (w.writeMany E bufs).bw.hashFed = w.bw.hashFed ++ (encFold E w.encState bufs).2 ∧
      (w.writeMany E bufs).encState = (encFold E w.encState bufs).1 ∧
      (w.writeMany E bufs).uncompressedFed = w.uncompressedFed ++ bufs.flatten := by
  induction bufs with
  | nil => intro w; simp [GzipLayerWriter.writeMany, encFold]
  | cons b bs ih =>
    intro w
    simp only [GzipLayerWriter.writeMany, List.foldl_cons] at *
    obtain ⟨h1, h2, h3, h4⟩ := ih (w.write E b)
    have hfold : encFold E w.encState (b :: bs)
        = ((encFold E (E.writeAll w.encState b).1 bs).1,
           (E.writeAll w.encState b).2 ++ (encFold E (E.writeAll w.encState b).1 bs).2) := by
      simp only [encFold, List.foldl_cons]
      rw [encFold_out_append]
      simp [encFold]
    refine ⟨?_, ?_, ?_, ?_⟩
    · rw [h1, hfold]
      simp [GzipLayerWriter.write, BlobWriter.write, List.append_assoc]
    · rw [h2, hfold]
      simp [GzipLayerWriter.write, BlobWriter.write, List.append_assoc]
    · rw [h3, hfold]
      simp [GzipLayerWriter.write]
    · rw [h4]
      simp [GzipLayerWriter.write, List.append_assoc]

/-! ## OCI descriptors, manifests, configurations -/

/-- An OCI `Descriptor`: media type, digest, size, optional annotations
(an association map), optional platform. -/
structure Descriptor where
  mediaType : String
  digest : String
  size : Nat
  annotations : Option (List (String × String))
  platform : Option String
deriving DecidableEq, Repr

/-- Standard OCI media types used by the code. -/
def mediaTypeImageManifest : String := "application/vnd.oci.image.manifest.v1+json"

def mediaTypeImageConfig : String := "application/vnd.oci.image.config.v1+json"

def mediaTypeImageLayerGzip : String := "application/vnd.oci.image.layer.v1.tar+gzip"

/-- An image manifest: schema version, config descriptor, ordered layers. -/
structure ImageManifest where
  schemaVersion : Nat
  config : Descriptor
  layers : List Descriptor
deriving DecidableEq, Repr

/-- One `history` entry of an image configuration. -/
structure History where
  created : String
  created_by : String
deriving DecidableEq, Repr

/-- The `rootfs` part of an image configuration. -/
structure RootFs where
  diff_ids : List String
deriving DecidableEq, Repr

/-- An image configuration: `rootfs.diff_ids` and `history`. -/
structure ImageConfiguration where
  rootfs : RootFs
  history : List History
deriving DecidableEq, Repr

/-- `SCHEMA_VERSION`. -/
def SCHEMA_VERSION : Nat := 2

/-- `empty_config_descriptor`: the dummy config descriptor. -/
def empty_config_descriptor : Descriptor :=
  { mediaType := mediaTypeImageConfig
    digest := "sha256:a5b2b2c507a0944348e0303114d8d93aaaa081732b86451d9bce1f432a537bc7"
    size := 7023
    annotations := none
    platform := none }

/-- `new_empty_manifest` (built): schema version 2, dummy config, no layers. -/
def new_empty_manifest : ImageManifest :=
  { schemaVersion := SCHEMA_VERSION, config := empty_config_descriptor, layers := [] }

/-- `ImageConfigurationBuilder::default().build()`: empty diff ids and history. -/
def default_image_configuration : ImageConfiguration :=
  { rootfs := { diff_ids := [] }, history := [] }

/-! ## Layer/History Composer (`push_layer`, `push_layer_annotated`) -/

/-- `OciDir::push_layer_annotated`: build a gzip-layer descriptor from the
layer's blob digest and size with the optional annotations, append it to the
manifest's layers, append `sha256:<uncompressed>` to the config's
`rootfs.diff_ids`, and append one history entry with the current timestamp
`now` and the description. -/
def push_layer_annotated (manifest : ImageManifest) (config : ImageConfiguration)
    (layer : Layer) (annotations : Option (List (String × String)))
    (description : String) (now : String) : ImageManifest × ImageConfiguration :=
  let blobdesc : Descriptor :=
    { mediaType := mediaTypeImageLayerGzip
      digest := layer.blob.digest_id
      size := layer.blob.size
      annotations := annotations
      platform := none }
  let manifest := { manifest with layers := manifest.layers ++ [blobdesc] }
  let rootfs : RootFs :=
    { diff_ids := config.rootfs.diff_ids ++ ["sha256:" ++ layer.uncompressed_sha256] }
  let h : History := { created := now, created_by := description }
  let config := { config with rootfs := rootfs, history := config.history ++ [h] }
  (manifest, config)

/-- `OciDir::push_layer` forwards to `push_layer_annotated`. -/
def push_layer (manifest : ImageManifest) (config : ImageConfiguration)
    (layer : Layer) (description : String)
    (annotations : Option (List (String × String))) (now : String) :
    ImageManifest × ImageConfiguration :=
  push_layer_annotated manifest config layer annotations description now

/-- Repeated `push_layer` calls, each item being a layer, its description and
the timestamp observed at that call. -/
def pushMany (mc : ImageManifest × ImageConfiguration) :
    List (Layer × String × String) → ImageManifest × ImageConfiguration
  | [] => mc
  | item :: rest =>
    pushMany (push_layer mc.1 mc.2 item.1 item.2.1 none item.2.2) rest

/-! ## Manifest/Index Manager -/

/-- `OciDir::descriptor_is_tagged`: the descriptor's annotations contain the
tag key with exactly this value. -/
def descriptor_is_tagged (d : Descriptor) (tag : String) : Bool :=
  match d.annotations with
  | some annos =>
    match annos.lookup ociTagKey with
    | some v => v == tag
    | none => false
  | none => false

/-- The manifest descriptor built inside `insert_manifest` before the tag
annotation is attached: fresh from `write_json_blob(...).platform(platform)`,
so its annotations are absent. -/
def manifest_descriptor (digest : String) (size : Nat) (platform : String) : Descriptor :=
  { mediaType := mediaTypeImageManifest
    digest := digest
    size := size
    annotations := none
    platform := some platform }

/-- `OciDir::insert_manifest`, index transformation: build the manifest
descriptor (tag annotation attached when a tag is given), then, starting from
the read index (or a fresh one when `index.json` is absent), drop every
descriptor carrying the tag and append the new descriptor.  Returns the new
manifests list that is atomically written as `index.json`. -/
def insert_manifest (index : Option (List Descriptor)) (digest : String) (size : Nat)
    (tag : Option String) (platform : String) : List Descriptor :=
  let m := manifest_descriptor digest size platform
  let m := match tag with
    | some t => { m with annotations := some [(ociTagKey, t)] }
    | none => m
  match index with
  | some idx =>
    let manifests := match tag with
      | some t => idx.filter (fun d => ! descriptor_is_tagged d t)
      | none => idx
    manifests ++ [m]
  | none => [m]

/-- Error cases of `read_manifest_and_descriptor` and `read_manifest`. -/
inductive ReadManifestError where
  | openIndexFailed : ReadManifestError
  | noManifests : ReadManifestError
  | expectedExactlyOne (found : Nat) : ReadManifestError
  | blobUnreadable (digest : String) : ReadManifestError
deriving DecidableEq, Repr

/-- `OciDir::read_json_blob` for a manifest: resolve the descriptor's digest
to a blob path, then look the path up in the store (`none` models both a
missing blob file and a JSON parse failure). -/
def read_json_blob (store : List String → Option ImageManifest) (d : Descriptor) :
    Option ImageManifest :=
  match parse_descriptor_to_path d.digest with
  | none => none
  | some p => store p

/-- `OciDir::read_manifest_and_descriptor`: open `index.json` (error when
absent), then require exactly one manifest descriptor: zero bails with "No
manifests found", two or more bail naming the count; with exactly one, read
its manifest blob. -/
def read_manifest_and_descriptor (index : Option (List Descriptor))
    (store : List String → Option ImageManifest) :
    Except ReadManifestError (ImageManifest × Descriptor) :=
  match index with
  | none => .error .openIndexFailed
  | some ms =>
    match ms with
    | [] => .error .noManifests
    | [desc] =>
      match read_json_blob store desc with
      | some m => .ok (m, desc)
      | none => .error (.blobUnreadable desc.digest)
    | manifests => .error (.expectedExactlyOne manifests.length)

/-- `OciDir::read_manifest` projects the manifest out of
`read_manifest_and_descriptor`. -/
def read_manifest (index : Option (List Descriptor))
    (store : List String → Option ImageManifest) :
    Except ReadManifestError ImageManifest :=
  (read_manifest_and_descriptor index store).map Prod.fst

/-- Error cases of `find_manifest_with_tag`. -/
inductive FindTagError where
  | openIndexFailed : FindTagError
  | blobUnreadable (digest : String) : FindTagError
deriving DecidableEq, Repr

/-- The scan loop of `find_manifest_with_tag` over the index's manifests. -/
def find_manifest_with_tag_in (store : List String → Option ImageManifest)
    (tag : String) : List Descriptor → Except FindTagError (Option ImageManifest)
  | [] => .ok none
  | d :: rest =>
    if descriptor_is_tagged d tag then
      match read_json_blob store d with
      | some m => .ok (some m)
      | none => .error (.blobUnreadable d.digest)
    else find_manifest_with_tag_in store tag rest

/-- `OciDir::find_manifest_with_tag`: open `index.json` (error when absent,
via `Dir::open`), then scan the manifest descriptors for the first one
carrying the tag; read and return its manifest, or return `none` when no
descriptor carries the tag. -/
def find_manifest_with_tag (index : Option (List Descriptor))
    (store : List String → Option ImageManifest) (tag : String) :
    Except FindTagError (Option ImageManifest) :=
  match index with
  | none => .error .openIndexFailed
  | some ms => find_manifest_with_tag_in store tag ms

/-! ## Integrity sweep (`fsck`) -/

/-- A directory entry of `blobs/sha256` as seen by `fsck`: its file name,
whether it is a regular file, and its content. -/
structure DirEntry where
  name : List Char
  is_file : Bool
  content : List Byte
deriving DecidableEq, Repr

/-- The one failure of `fsck`: a blob whose recomputed digest differs from
its file name (expected, found). -/
inductive FsckError where
  | digestMismatch (expected found : List Char) : FsckError
deriving DecidableEq, Repr

/-- Whether `fsck` hashes an entry (name of sha256-hex length, regular file). -/
def fsckConsiders (e : DirEntry) : Bool :=
  e.name.length == BLOB_SHA256_LEN && e.is_file

/-- The `fsck` loop with running counter `r`: skip entries whose name length
differs from 64 or which are not regular files; otherwise recompute the
digest over the content and compare it with the name, failing fast on the
first mismatch. -/
def fsckFrom (H : List Byte → List Byte) (r : Nat) : List DirEntry → Except FsckError Nat
  | [] => .ok r
  | e :: rest =>
    if e.name.length ≠ BLOB_SHA256_LEN then fsckFrom H r rest
    else if ! e.is_file then fsckFrom H r rest
    else
      let found := hexEncode (H e.content)
      if e.name = found then fsckFrom H (r + 1) rest
      else .error (.digestMismatch e.name found)

/-- `OciDir::fsck` over the entries of `blobs/sha256`. -/
def fsck (H : List Byte → List Byte) (entries : List DirEntry) : Except FsckError Nat :=
  fsckFrom H 0 entries

/-! ## Filesystem model, `ensure` and `clone_to`

The capability-scoped filesystem is a finite map from paths (segment lists)
to file contents; directories are implicit.  `atomic_write` /
`atomic_replace_with` become replace-or-create of the mapping. -/

/-- A path, as a list of segments. -/
abbrev FPath := List String

/-- A filesystem: an association list from paths to byte contents. -/
structure FS where
  files : List (FPath × List Byte)
deriving DecidableEq, Repr

/-- Read a file. -/
def FS.read (fs : FS) (p : FPath) : Option (List Byte) :=
  fs.files.lookup p

/-- Replace-or-create a file (atomic publish). -/
def FS.write (fs : FS) (p : FPath) (c : List Byte) : FS :=
  if fs.files.any (fun e => e.1 == p) then
    ⟨fs.files.map (fun e => if e.1 == p then (p, c) else e)⟩
  else ⟨fs.files ++ [(p, c)]⟩

/-- `read_dir`: names of the files directly inside `dir`. -/
def FS.readDirNames (fs : FS) (dir : FPath) : List String :=
  fs.files.filterMap (fun e =>
    if e.1 ≠ [] ∧ e.1.dropLast = dir then e.1.getLast? else none)

/-- The relative blob directory `blobs/sha256` as path segments. -/
def blobDirPath : FPath := ["blobs", "sha256"]

/-- Content of the `oci-layout` marker file. -/
def ociLayoutContent : List Byte :=
  "\x7b\"imageLayoutVersion\":\"1.0.0\"\x7d".data.map Char.toNat

/-- `OciDir::ensure` rooted at `root`: create the blob tree (implicit here)
and write `oci-layout` if it does not exist yet. -/
def ensure (fs : FS) (root : FPath) : FS :=
  if (fs.read (root ++ ["oci-layout"])).isSome then fs
  else fs.write (root ++ ["oci-layout"]) ociLayoutContent

/-- `OciDir::clone_to` from the store rooted at `srcRoot` to
`destRoot/p`: create the destination directory, `ensure` it, then loop over
the entries of the source's `blobs/sha256`; for each entry the source file is
opened and — exactly as the code does — rewritten through
`self.dir.atomic_replace_with` at the *source* path. -/
def clone_to (fs : FS) (srcRoot destRoot : FPath) (p : String) : FS :=
  let destSub := destRoot ++ [p]
  let fs1 := ensure fs destSub
  (fs1.readDirNames (srcRoot ++ blobDirPath)).foldl
    (fun acc name =>
      match acc.read (srcRoot ++ blobDirPath ++ [name]) with
      | some content => acc.write (srcRoot ++ blobDirPath ++ [name]) content
      | none => acc)
    fs1

/-! ## Claim theorems -/

/-- A source store holding one blob and the layout marker, used to exhibit
the `clone_to` defect. -/
def c1SrcFS : FS :=
  ⟨[(["src", "oci-layout"], ociLayoutContent),
    (["src"] ++ blobDirPath ++ [String.mk (List.replicate 64 'a')], [7])]⟩

/-- C1: the claim says `clone_to(dest, p)` copies every source blob into the
destination store's `blobs/sha256`.  The code instead opens each source blob
and rewrites it through `self.dir.atomic_replace_with` — back into the
*source* directory — so the destination blob tree stays empty while the
source is left unchanged; only `ensure` ran at the destination. -/
theorem c1_clone_to_leaves_destination_empty :
    (clone_to c1SrcFS ["src"] ["dest"] "sub").read
        (["dest", "sub"] ++ blobDirPath ++ [String.mk (List.replicate 64 'a')]) = none ∧
    (clone_to c1SrcFS ["src"] ["dest"] "sub").read
        (["src"] ++ blobDirPath ++ [String.mk (List.replicate 64 'a')]) = some [7] ∧
    (clone_to c1SrcFS ["src"] ["dest"] "sub").read ["dest", "sub", "oci-layout"]
        = some ociLayoutContent := by
  refine ⟨?_, ?_, ?_⟩ <;> decide

/-- C2 counterexample: a descriptor whose hex component contains the path
separator `/` is *not* rejected — `parse_one_filename` silently drops the
directory components and `read_blob` would open `blobs/sha256/abc`. -/
theorem c2_separator_in_hex_not_rejected :
    parse_descriptor_to_path "sha256:evil/abc" = some ["blobs", "sha256", "abc"] ∧
    '/' ∈ "evil/abc".data := by
  refine ⟨?_, ?_⟩ <;> decide

/-- C2 (amended): `read_blob` errors when the digest's algorithm component's
final filename component is not `sha256`, or when a component has no final
filename component at all (empty, bare `/`, or terminating in `..`); a path
separator *inside* a component does not cause an error — its directory part
is ignored — and every successfully resolved path is
`blobs/sha256/<h>` for a single nonempty component `h` that is not `..` and
contains no `/`, so no file outside the immediate blob directory is ever
opened. -/
theorem c2_read_blob_path_confinement (digest : String) :
    (∀ p, parse_descriptor_to_path digest = some p →
      ∃ h : String, p = ["blobs", "sha256", h] ∧ h.data ≠ [] ∧
        h.data ≠ ['.', '.'] ∧ '/' ∉ h.data) ∧
    (∀ alg hash, splitOnceColon digest = some (alg, hash) →
      parse_one_filename alg ≠ some "sha256" →
      parse_descriptor_to_path digest = none) := by
  constructor
  · intro p hp
    simp only [parse_descriptor_to_path] at hp
    split at hp
    · exact absurd hp (by simp)
    · next alg hash heq =>
      split at hp
      · exact absurd hp (by simp)
      · next a ha =>
        split at hp
        · split at hp
          · exact absurd hp (by simp)
          · next h hh =>
            simp only [Option.some.injEq] at hp
            obtain ⟨h1, h2, h3⟩ := parse_one_filename_safe hh
            exact ⟨h, hp.symm, h1, h2, h3⟩
        · exact absurd hp (by simp)
  · intro alg hash heq hne
    simp only [parse_descriptor_to_path, heq]
    cases ha : parse_one_filename alg with
    | none => rfl
    | some a =>
      have : a ≠ "sha256" := by
        intro h
        exact hne (by rw [ha, h])
      simp [this]

/-- C2 witness: a well-formed sha256 descriptor resolves, and its resolved
path is confined to the blob directory. -/
theorem c2_read_blob_path_confinement_witness :
    ∃ h : String, (["blobs", "sha256", "abc"] : List String) = ["blobs", "sha256", h] ∧
      h.data ≠ [] ∧ h.data ≠ ['.', '.'] ∧ '/' ∉ h.data :=
  (c2_read_blob_path_confinement "sha256:abc").1 ["blobs", "sha256", "abc"] (by decide)

/-- C3: writing buffers `b1..bn` through a `BlobWriter` and completing it
yields a `Blob` whose `sha256` is the lowercase hex of the digest of the
concatenation `b1 ++ ... ++ bn`, whose `size` is the total number of bytes
written (the `u64` counter does not wrap below `2^64`), and the exact
concatenation is published under `blobs/sha256/<sha256>`. -/
theorem c3_blob_writer_digest_size_path (H : List Byte → List Byte)
    (bufs : List (List Byte)) (hlen : bufs.flatten.length < U64) :
    ((BlobWriter.new.writeMany bufs).complete H).blob.sha256
        = String.mk (hexEncode (H bufs.flatten)) ∧
    ((BlobWriter.new.writeMany bufs).complete H).blob.size = bufs.flatten.length ∧
    ((BlobWriter.new.writeMany bufs).complete H).content = bufs.flatten ∧
    ((BlobWriter.new.writeMany bufs).complete H).path
        = "blobs/sha256/" ++ ((BlobWriter.new.writeMany bufs).complete H).blob.sha256 ∧
    ∀ c ∈ (((BlobWriter.new.writeMany bufs).complete H).blob.sha256).data, c ∈ hexChars := by
  have hh := writeMany_hashFed bufs BlobWriter.new
  have ht := writeMany_target bufs BlobWriter.new
  have hs := writeMany_size bufs BlobWriter.new (by norm_num [BlobWriter.new, U64])
  refine ⟨?_, ?_, ?_, rfl, ?_⟩
  · simp only [BlobWriter.complete, hh]
    simp [BlobWriter.new]
  · simp only [BlobWriter.complete]
    rw [hs]
    simp only [BlobWriter.new, Nat.zero_add]
    exact Nat.mod_eq_of_lt hlen
  · simp only [BlobWriter.complete, ht]
    simp [BlobWriter.new]
  · intro c hc
    simp only [BlobWriter.complete] at hc
    exact hexEncode_mem hc

/-- C3 witness at a concrete write sequence. -/
theorem c3_blob_writer_digest_size_path_witness :
    ([[1, 2], [3]] : List (List Byte)).flatten.length < U64 ∧
    ((BlobWriter.new.writeMany [[1, 2], [3]]).complete (fun l => l)).blob.sha256
      = String.mk (hexEncode [1, 2, 3]) ∧
    ((BlobWriter.new.writeMany [[1, 2], [3]]).complete (fun l => l)).blob.size = 3 :=
  ⟨by decide,
   (c3_blob_writer_digest_size_path (fun l => l) [[1, 2], [3]] (by decide)).1,
   (c3_blob_writer_digest_size_path (fun l => l) [[1, 2], [3]] (by decide)).2.1⟩

/-- C10: `insert_manifest` with `tag = None` on an existing index removes
nothing and appends the new (untagged) manifest descriptor, growing the list
by exactly one; inserting untagged twice leaves two duplicate descriptors. -/
theorem c10_insert_untagged_appends (idx : List Descriptor) (digest : String)
    (size : Nat) (platform : String) :
    insert_manifest (some idx) digest size none platform
      = idx ++ [manifest_descriptor digest size platform] ∧
    (insert_manifest (some idx) digest size none platform).length = idx.length + 1 ∧
    insert_manifest (some (insert_manifest (some idx) digest size none platform))
        digest size none platform
      = idx ++ [manifest_descriptor digest size platform,
                manifest_descriptor digest size platform] := by
  refine ⟨rfl, by simp [insert_manifest], by simp [insert_manifest]⟩

/-- C5: inserting a manifest under a tag first drops every descriptor
carrying that tag and then appends the new, tagged descriptor, so the
resulting index holds exactly one descriptor with that tag; and every
`insert_manifest` call (tagged or not) preserves the at-most-one-descriptor-
per-tag invariant. -/
theorem c5_insert_manifest_replaces_tag (index : Option (List Descriptor))
    (digest : String) (size : Nat) (platform : String) :
    (∀ t : String,
      (insert_manifest index digest size (some t) platform).countP
        (fun d => descriptor_is_tagged d t) = 1) ∧
    (∀ (tag : Option String) (t : String),
      (∀ idx, index = some idx →
        idx.countP (fun d => descriptor_is_tagged d t) ≤ 1) →
      (insert_manifest index digest size tag platform).countP
        (fun d => descriptor_is_tagged d t) ≤ 1) := by
  have htag : ∀ t t' : String,
      descriptor_is_tagged
        { manifest_descriptor digest size platform with
            annotations := some [(ociTagKey, t)] } t' = (t == t') := by
    intro t t'
    simp [descriptor_is_tagged, List.lookup]
  have huntag : ∀ t : String,
      descriptor_is_tagged (manifest_descriptor digest size platform) t = false :=
    fun _ => rfl
  have hfilter0 : ∀ (idx : List Descriptor) (t : String),
      (idx.filter (fun d => ! descriptor_is_tagged d t)).countP
        (fun d => descriptor_is_tagged d t) = 0 := by
    intro idx t
    rw [List.countP_eq_zero]
    intro d hd
    have hnd := (List.mem_filter.mp hd).2
    simp only [Bool.not_eq_true'] at hnd
    simp [hnd]
  have hcount1 : ∀ t : String,
      (insert_manifest index digest size (some t) platform).countP
        (fun d => descriptor_is_tagged d t) = 1 := by
    intro t
    cases index with
    | none => simp [insert_manifest, htag]
    | some idx =>
      simp only [insert_manifest]
      rw [List.countP_append, hfilter0 idx t]
      simp [htag]
  refine ⟨hcount1, ?_⟩
  intro tag t hinv
  cases tag with
  | none =>
    cases index with
    | none => simp [insert_manifest, huntag]
    | some idx =>
      have hle := hinv idx rfl
      simp only [insert_manifest]
      rw [List.countP_append]
      simp only [List.countP_cons, List.countP_nil, huntag, Bool.false_eq_true,
        if_false]
      omega
  | some t0 =>
    by_cases ht0 : t0 = t
    · subst ht0
      exact le_of_eq (hcount1 t0)
    · cases index with
      | none =>
        simp [insert_manifest, htag, ht0]
      | some idx =>
        have hle := hinv idx rfl
        have hsub : (idx.filter (fun d => ! descriptor_is_tagged d t0)).countP
            (fun d => descriptor_is_tagged d t)
              ≤ idx.countP (fun d => descriptor_is_tagged d t) :=
          (List.filter_sublist idx).countP_le _
        simp only [insert_manifest]
        rw [List.countP_append]
        simp only [List.countP_cons, List.countP_nil, htag]
        have : (t0 == t) = false := by simp [ht0]
        rw [this]
        simp only [Bool.false_eq_true, if_false]
        omega

/-- C5 witness: inserting under `latest` into an empty index yields exactly
one `latest`-tagged descriptor, and the invariant is preserved. -/
theorem c5_insert_manifest_replaces_tag_witness :
    (∀ idx : List Descriptor, (some ([] : List Descriptor)) = some idx →
      idx.countP (fun d => descriptor_is_tagged d "latest") ≤ 1) ∧
    (insert_manifest (some []) "sha256:deadbeef" 5 (some "latest") "linux").countP
      (fun d => descriptor_is_tagged d "latest") = 1 ∧
    (insert_manifest (some []) "sha256:deadbeef" 5 (some "latest") "linux").countP
      (fun d => descriptor_is_tagged d "latest") ≤ 1 :=
  ⟨fun idx h => by cases h; simp,
   (c5_insert_manifest_replaces_tag (some []) "sha256:deadbeef" 5 "linux").1 "latest",
   (c5_insert_manifest_replaces_tag (some []) "sha256:deadbeef" 5 "linux").2
     (some "latest") "latest" (fun idx h => by cases h; simp)⟩

/-- C6 counterexample: with exactly one manifest descriptor in the index but
an unreadable (absent) manifest blob, `read_manifest_and_descriptor` fails —
so "succeeds if and only if the index contains exactly one manifest
descriptor" does not hold as stated. -/
theorem c6_one_descriptor_can_still_fail :
    read_manifest_and_descriptor (some [manifest_descriptor "sha256:abc" 3 "linux"])
        (fun _ => none)
      = .error (.blobUnreadable "sha256:abc") ∧
    [manifest_descriptor "sha256:abc" 3 "linux"].length = 1 :=
  ⟨rfl, rfl⟩

/-- C6 (amended): `read_manifest` / `read_manifest_and_descriptor` fail with
`No manifests found` on an index with zero descriptors and with an error
naming the count on `n ≥ 2` descriptors; with exactly one descriptor they
succeed provided the referenced manifest blob is present and deserializes
(and fail on it otherwise); every success implies the index had exactly one
descriptor. -/
theorem c6_read_manifest_requires_exactly_one (index : Option (List Descriptor))
    (store : List String → Option ImageManifest) :
    (read_manifest index store
        = (read_manifest_and_descriptor index store).map Prod.fst) ∧
    (index = some [] →
      read_manifest_and_descriptor index store = .error .noManifests) ∧
    (∀ ms, index = some ms → 2 ≤ ms.length →
      read_manifest_and_descriptor index store
        = .error (.expectedExactlyOne ms.length)) ∧
    (∀ d m, index = some [d] → read_json_blob store d = some m →
      read_manifest_and_descriptor index store = .ok (m, d)) ∧
    (∀ r, read_manifest_and_descriptor index store = .ok r →
      ∃ ms, index = some ms ∧ ms.length = 1) := by
  refine ⟨rfl, ?_, ?_, ?_, ?_⟩
  · rintro rfl
    rfl
  · rintro ms rfl hlen
    rcases ms with _ | ⟨a, _ | ⟨b, rest⟩⟩
    · simp at hlen
    · simp at hlen
    · rfl
  · rintro d m rfl hread
    simp [read_manifest_and_descriptor, hread]
  · intro r hr
    cases index with
    | none => simp [read_manifest_and_descriptor] at hr
    | some ms =>
      rcases ms with _ | ⟨a, _ | ⟨b, rest⟩⟩
      · simp [read_manifest_and_descriptor] at hr
      · exact ⟨[a], rfl, rfl⟩
      · simp [read_manifest_and_descriptor] at hr

/-- C6 witness: with one descriptor whose blob is present, the accessor
succeeds and returns that manifest and descriptor. -/
theorem c6_read_manifest_requires_exactly_one_witness :
    read_json_blob
        (fun p => if p = ["blobs", "sha256", "abc"] then some new_empty_manifest else none)
        (manifest_descriptor "sha256:abc" 3 "linux") = some new_empty_manifest ∧
    read_manifest_and_descriptor (some [manifest_descriptor "sha256:abc" 3 "linux"])
        (fun p => if p = ["blobs", "sha256", "abc"] then some new_empty_manifest else none)
      = .ok (new_empty_manifest, manifest_descriptor "sha256:abc" 3 "linux") :=
  ⟨by decide,
   (c6_read_manifest_requires_exactly_one
      (some [manifest_descriptor "sha256:abc" 3 "linux"])
      (fun p => if p = ["blobs", "sha256", "abc"] then some new_empty_manifest else none)
    ).2.2.2.1 (manifest_descriptor "sha256:abc" 3 "linux") new_empty_manifest rfl
      (by decide)⟩

theorem find_in_untagged_skip (store : List String → Option ImageManifest)
    (tag : String) :
    ∀ pre rest : List Descriptor, (∀ e ∈ pre, descriptor_is_tagged e tag = false) →
      find_manifest_with_tag_in store tag (pre ++ rest)
        = find_manifest_with_tag_in store tag rest := by
  intro pre
  induction pre with
  | nil => intro rest _; rfl
  | cons e pre ih =>
    intro rest h
    have he := h e (List.mem_cons_self _ _)
    simp only [List.cons_append, find_manifest_with_tag_in, he]
    simp only [Bool.false_eq_true, if_false]
    exact ih rest (fun x hx => h x (List.mem_cons_of_mem _ hx))

/-- C9 counterexample: when `index.json` is absent, `find_manifest_with_tag`
returns an error (it opens the index with `Dir::open`, not optionally) — not
the claimed not-found result. -/
theorem c9_absent_index_errors :
    find_manifest_with_tag none (fun _ => none) "latest"
      = .error .openIndexFailed := rfl

/-- C9 (amended): when the index file exists and no manifest descriptor
carries the tag annotation, `find_manifest_with_tag` returns a not-found
result rather than an error; when the first tagged descriptor's blob is
present and deserializes, it returns that manifest; but when the index file
itself is absent, it returns an error. -/
theorem c9_find_manifest_with_tag_behavior
    (store : List String → Option ImageManifest) (tag : String) :
    (find_manifest_with_tag none store tag = .error .openIndexFailed) ∧
    (∀ ms, (∀ d ∈ ms, descriptor_is_tagged d tag = false) →
      find_manifest_with_tag (some ms) store tag = .ok none) ∧
    (∀ pre d rest m, (∀ e ∈ pre, descriptor_is_tagged e tag = false) →
      descriptor_is_tagged d tag = true → read_json_blob store d = some m →
      find_manifest_with_tag (some (pre ++ d :: rest)) store tag = .ok (some m)) := by
  refine ⟨rfl, ?_, ?_⟩
  · intro ms h
    have hskip := find_in_untagged_skip store tag ms [] h
    simp only [List.append_nil] at hskip
    simpa [find_manifest_with_tag, find_manifest_with_tag_in] using hskip
  · intro pre d rest m hpre hd hread
    simp only [find_manifest_with_tag]
    rw [find_in_untagged_skip store tag pre (d :: rest) hpre]
    simp [find_manifest_with_tag_in, hd, hread]

/-- C9 witness: an existing index with no descriptor carrying the tag gives
the not-found result. -/
theorem c9_find_manifest_with_tag_behavior_witness :
    (∀ d ∈ ([] : List Descriptor), descriptor_is_tagged d "latest" = false) ∧
    find_manifest_with_tag (some []) (fun _ => none) "latest" = .ok none :=
  ⟨fun d hd => absurd hd (List.not_mem_nil d),
   (c9_find_manifest_with_tag_behavior (fun _ => none) "latest").2.1 []
     (fun d hd => absurd hd (List.not_mem_nil d))⟩

theorem fsckFrom_ok (H : List Byte → List Byte) (entries : List DirEntry) :
    ∀ r : Nat, (∀ e ∈ entries, fsckConsiders e = true → e.name = hexEncode (H e.content)) →
      fsckFrom H r entries = .ok (r + entries.countP fsckConsiders) := by
  induction entries with
  | nil => intro r _; simp [fsckFrom]
  | cons e rest ih =>
    intro r h
    have hrest := fun x hx => h x (List.mem_cons_of_mem _ hx)
    by_cases h64 : e.name.length = BLOB_SHA256_LEN
    · by_cases hf : e.is_file
      · have hcons : fsckConsiders e = true := by
          simp [fsckConsiders, h64, hf]
        have hname := h e (List.mem_cons_self _ _) hcons
        rw [fsckFrom, if_neg (not_not_intro h64), if_neg (by simp [hf]), if_pos hname,
          ih (r + 1) hrest]
        congr 1
        rw [List.countP_cons, if_pos hcons]
        omega
      · have hskip : fsckConsiders e = false := by
          simp [fsckConsiders, hf]
        rw [fsckFrom, if_neg (not_not_intro h64), if_pos (by simp [hf]),
          ih r hrest]
        congr 1
        rw [List.countP_cons, if_neg (by simp [hskip])]
        omega
    · have hskip : fsckConsiders e = false := by
        simp [fsckConsiders, h64]
      rw [fsckFrom, if_pos h64, ih r hrest]
      congr 1
      rw [List.countP_cons, if_neg (by simp [hskip])]
      omega

theorem fsckFrom_error (H : List Byte → List Byte) (bad : DirEntry)
    (post : List DirEntry) (hbad : fsckConsiders bad = true)
    (hmis : bad.name ≠ hexEncode (H bad.content)) :
    ∀ (pre : List DirEntry) (r : Nat),
      (∀ e ∈ pre, fsckConsiders e = true → e.name = hexEncode (H e.content)) →
      fsckFrom H r (pre ++ bad :: post)
        = .error (.digestMismatch bad.name (hexEncode (H bad.content))) := by
  have h64b : bad.name.length = BLOB_SHA256_LEN := by
    simp only [fsckConsiders, Bool.and_eq_true, beq_iff_eq] at hbad
    exact hbad.1
  have hfb : bad.is_file = true := by
    simp only [fsckConsiders, Bool.and_eq_true, beq_iff_eq] at hbad
    exact hbad.2
  intro pre
  induction pre with
  | nil =>
    intro r _
    rw [List.nil_append, fsckFrom, if_neg (not_not_intro h64b), if_neg (by simp [hfb]),
      if_neg hmis]
  | cons e pre ih =>
    intro r h
    have hrest := fun x hx => h x (List.mem_cons_of_mem _ hx)
    by_cases h64 : e.name.length = BLOB_SHA256_LEN
    · by_cases hf : e.is_file
      · have hcons : fsckConsiders e = true := by
          simp [fsckConsiders, h64, hf]
        have hname := h e (List.mem_cons_self _ _) hcons
        rw [List.cons_append, fsckFrom, if_neg (not_not_intro h64), if_neg (by simp [hf]),
          if_pos hname]
        exact ih (r + 1) hrest
      · rw [List.cons_append, fsckFrom, if_neg (not_not_intro h64), if_pos (by simp [hf])]
        exact ih r hrest
    · rw [List.cons_append, fsckFrom, if_pos h64]
      exact ih r hrest

/-- C7: `fsck` hashes exactly the entries whose name has sha256-hex length
and which are regular files; when all of those match their names it returns
their count, and at the first mismatching entry it stops with an error
carrying the expected (file name) and found (recomputed) digests, regardless
of what follows that entry. -/
theorem c7_fsck_counts_and_fails_first (H : List Byte → List Byte)
    (entries : List DirEntry) :
    ((∀ e ∈ entries, fsckConsiders e = true → e.name = hexEncode (H e.content)) →
      fsck H entries = .ok (entries.countP fsckConsiders)) ∧
    (∀ pre bad post, entries = pre ++ bad :: post →
      (∀ e ∈ pre, fsckConsiders e = true → e.name = hexEncode (H e.content)) →
      fsckConsiders bad = true → bad.name ≠ hexEncode (H bad.content) →
      fsck H entries
        = .error (.digestMismatch bad.name (hexEncode (H bad.content)))) := by
  constructor
  · intro h
    simpa using fsckFrom_ok H entries 0 h
  · rintro pre bad post rfl hpre hbad hmis
    exact fsckFrom_error H bad post hbad hmis pre 0 hpre

/-- C7 witness: a store with one intact blob verifies with count 1. -/
theorem c7_fsck_counts_and_fails_first_witness :
    (∀ e ∈ [DirEntry.mk (hexEncode (List.replicate 32 0)) true []],
      fsckConsiders e = true → e.name = hexEncode ((fun _ => List.replicate 32 0) e.content)) ∧
    fsck (fun _ => List.replicate 32 0)
        [DirEntry.mk (hexEncode (List.replicate 32 0)) true []]
      = .ok 1 :=
  ⟨fun e he _ => by cases List.mem_singleton.mp he; rfl,
   (c7_fsck_counts_and_fails_first (fun _ => List.replicate 32 0)
      [DirEntry.mk (hexEncode (List.replicate 32 0)) true []]).1
     (fun e he _ => by cases List.mem_singleton.mp he; rfl)⟩

theorem pushMany_spec (items : List (Layer × String × String)) :
    ∀ mc : ImageManifest × ImageConfiguration,
      (pushMany mc items).1.layers
        = mc.1.layers ++ items.map (fun it =>
            { mediaType := mediaTypeImageLayerGzip
              digest := it.1.blob.digest_id
              size := it.1.blob.size
              annotations := none
              platform := none }) ∧
      (pushMany mc items).2.rootfs.diff_ids
        = mc.2.rootfs.diff_ids
            ++ items.map (fun it => "sha256:" ++ it.1.uncompressed_sha256) ∧
      (pushMany mc items).2.history
        = mc.2.history
            ++ items.map (fun it => { created := it.2.2, created_by := it.2.1 }) := by
  induction items with
  | nil => intro mc; simp [pushMany]
  | cons it rest ih =>
    intro mc
    obtain ⟨h1, h2, h3⟩ := ih (push_layer mc.1 mc.2 it.1 it.2.1 none it.2.2)
    simp only [pushMany]
    refine ⟨?_, ?_, ?_⟩
    · rw [h1]
      simp [push_layer, push_layer_annotated]
    · rw [h2]
      simp [push_layer, push_layer_annotated]
    · rw [h3]
      simp [push_layer, push_layer_annotated]

/-- C8: one `push_layer` / `push_layer_annotated` call on a manifest/config
pair with all three lists of length `k` leaves all three lists of length
`k + 1`, appending the layer descriptor built from the blob digest and size,
the diff id `sha256:<uncompressed>`, and one history entry with the given
description; after `N` pushes from empty lists all three lengths are `N` and
the i-th diff id is the i-th pushed layer's uncompressed digest. -/
theorem c8_push_layer_parallel_lists
    (manifest : ImageManifest) (config : ImageConfiguration) (layer : Layer)
    (annotations : Option (List (String × String))) (description now : String)
    (k : Nat) (h1 : manifest.layers.length = k)
    (h2 : config.rootfs.diff_ids.length = k) (h3 : config.history.length = k) :
    ((push_layer_annotated manifest config layer annotations description now
        ).1.layers.length = k + 1) ∧
    ((push_layer_annotated manifest config layer annotations description now
        ).2.rootfs.diff_ids.length = k + 1) ∧
    ((push_layer_annotated manifest config layer annotations description now
        ).2.history.length = k + 1) ∧
    ((push_layer_annotated manifest config layer annotations description now
        ).1.layers.getLast?
      = some { mediaType := mediaTypeImageLayerGzip, digest := layer.blob.digest_id
               size := layer.blob.size, annotations := annotations
               platform := none }) ∧
    ((push_layer_annotated manifest config layer annotations description now
        ).2.rootfs.diff_ids.getLast?
      = some ("sha256:" ++ layer.uncompressed_sha256)) ∧
    ((push_layer_annotated manifest config layer annotations description now
        ).2.history.getLast? = some { created := now, created_by := description }) ∧
    (push_layer manifest config layer description annotations now
      = push_layer_annotated manifest config layer annotations description now) ∧
    (∀ items : List (Layer × String × String),
      (pushMany (new_empty_manifest, default_image_configuration) items
          ).1.layers.length = items.length ∧
      (pushMany (new_empty_manifest, default_image_configuration) items
          ).2.rootfs.diff_ids.length = items.length ∧
      (pushMany (new_empty_manifest, default_image_configuration) items
          ).2.history.length = items.length ∧
      (pushMany (new_empty_manifest, default_image_configuration) items
          ).2.rootfs.diff_ids
        = items.map (fun it => "sha256:" ++ it.1.uncompressed_sha256)) := by
  refine ⟨?_, ?_, ?_, ?_, ?_, ?_, rfl, ?_⟩
  · simp [push_layer_annotated, h1]
  · simp [push_layer_annotated, h2]
  · simp [push_layer_annotated, h3]
  · simp [push_layer_annotated]
  · simp [push_layer_annotated]
  · simp [push_layer_annotated]
  · intro items
    obtain ⟨p1, p2, p3⟩ :=
      pushMany_spec items (new_empty_manifest, default_image_configuration)
    refine ⟨?_, ?_, ?_, ?_⟩
    · rw [p1]; simp [new_empty_manifest]
    · rw [p2]; simp [default_image_configuration]
    · rw [p3]; simp [default_image_configuration]
    · rw [p2]; simp [default_image_configuration]

/-- C8 witness at a concrete pair and layer. -/
theorem c8_push_layer_parallel_lists_witness :
    new_empty_manifest.layers.length = 0 ∧
    default_image_configuration.rootfs.diff_ids.length = 0 ∧
    default_image_configuration.history.length = 0 ∧
    (push_layer_annotated new_empty_manifest default_image_configuration
        (Layer.mk (Blob.mk "c0ffee" 9) "abcd") none "root" "2024-01-01T00:00:00Z"
      ).1.layers.length = 1 :=
  ⟨rfl, rfl, rfl,
   (c8_push_layer_parallel_lists new_empty_manifest default_image_configuration
      (Layer.mk (Blob.mk "c0ffee" 9) "abcd") none "root" "2024-01-01T00:00:00Z"
      0 rfl rfl rfl).1⟩

/-- C4: every byte sequence written through the `GzipLayerWriter` is both
compressed (via the buffer-clear-and-forward pattern, which loses and
duplicates nothing) and hashed uncompressed; assuming the external gzip
encoder/decoder round-trip contract, decompressing the published blob yields
exactly the original concatenation, and `uncompressed_sha256` is the digest
of the original (uncompressed) bytes. -/
theorem c4_gzip_layer_roundtrip {σ : Type} (E : GzEncoderModel σ)
    (decompress : List Byte → List Byte) (H : List Byte → List Byte)
    (bufs : List (List Byte))
    (hgzip : decompress (encRun E bufs) = bufs.flatten) :
    (((GzipLayerWriter.new E).writeMany E bufs).complete E H).content
        = encRun E bufs ∧
    decompress ((((GzipLayerWriter.new E).writeMany E bufs).complete E H).content)
        = bufs.flatten ∧
    (((GzipLayerWriter.new E).writeMany E bufs).complete E H
        ).layer.uncompressed_sha256
        = String.mk (hexEncode (H bufs.flatten)) := by
  obtain ⟨h1, h2, h3, h4⟩ := gzWriteMany_spec E bufs (GzipLayerWriter.new E)
  have hcontent : (((GzipLayerWriter.new E).writeMany E bufs).complete E H).content
      = encRun E bufs := by
    simp only [GzipLayerWriter.complete, BlobWriter.complete, BlobWriter.write]
    rw [h1, h3]
    simp [GzipLayerWriter.new, BlobWriter.new, encRun]
  refine ⟨hcontent, ?_, ?_⟩
  · rw [hcontent, hgzip]
  · simp only [GzipLayerWriter.complete]
    rw [h4]
    simp [GzipLayerWriter.new]

/-- C4 witness with the identity encoder (a valid instance of the round-trip
contract) at a concrete write sequence. -/
theorem c4_gzip_layer_roundtrip_witness :
    (fun l => l) (encRun (GzEncoderModel.mk () (fun _ b => ((), b)) (fun _ => []))
        [[1, 2], [3]]) = ([[1, 2], [3]] : List (List Byte)).flatten ∧
    (GzipLayerWriter.complete (GzEncoderModel.mk () (fun _ b => ((), b)) (fun _ => []))
        (fun l => l)
        (GzipLayerWriter.writeMany
          (GzEncoderModel.mk () (fun _ b => ((), b)) (fun _ => []))
          (GzipLayerWriter.new (GzEncoderModel.mk () (fun _ b => ((), b)) (fun _ => [])))
          [[1, 2], [3]])).layer.uncompressed_sha256
      = String.mk (hexEncode [1, 2, 3]) :=
  ⟨rfl,
   (c4_gzip_layer_roundtrip (GzEncoderModel.mk () (fun _ b => ((), b)) (fun _ => []))
      (fun l => l) (fun l => l) [[1, 2], [3]] rfl).2.2⟩

end Oci
